import Mathlib

/-!
Verification of the rust-rocksfs repository: a key-value storage façade
(`src/rocksfs.rs`) over a RocksDB engine, and a batched import pipeline
(`examples/importer.rs`) that streams records from a flatfs source into the
store.

The RocksDB engine itself is an external collaborator.  We model its visible
state as an association list from byte-string keys to byte-string values with
the engine's documented contract: `put` overwrites the value for a key, a
`WriteBatch` commits atomically (on failure the state is unchanged) and
applies its operations in insertion order.  Byte strings are `List Nat`.
The façade and importer definitions below follow the Rust source line by line.
-/

set_option autoImplicit false
set_option maxRecDepth 8000

namespace RocksFs

/-- An uninterpreted byte string (key or value). -/
abbrev Bytes := List Nat

/-- Visible engine state: an association list, most recent entry first.
All entries built through `dbPut` have pairwise distinct keys. -/
abbrev Store := List (Bytes × Bytes)

/-- Errors surfaced by the façade: the distinct "key not found" condition
produced by `eyre!("key not found")`, and errors of the underlying engine
(I/O failure, corruption), which carry an engine message. -/
inductive RocksError where
  | notFound
  | engine (msg : String)
deriving DecidableEq

/-- Engine model: value currently associated to `k`, if any. -/
def lookupStore (k : Bytes) : Store → Option Bytes
  | [] => none
  | (k', v) :: rest => if k' = k then some v else lookupStore k rest

/-- Engine model: remove every entry whose key is `k`. -/
def dbDeleteRaw (k : Bytes) : Store → Store
  | [] => []
  | (k', v) :: rest =>
      if k' = k then dbDeleteRaw k rest else (k', v) :: dbDeleteRaw k rest

/-- Engine model: `DB::put` — overwrite the value associated to `k`. -/
def dbPut (k v : Bytes) (s : Store) : Store :=
  (k, v) :: dbDeleteRaw k s

/-- One operation recorded in a RocksDB `WriteBatch`. -/
inductive BatchOp where
  | putOp (k v : Bytes)
  | deleteOp (k : Bytes)

/-- Effect of one batch operation on the engine state. -/
def applyOp (s : Store) : BatchOp → Store
  | .putOp k v => dbPut k v s
  | .deleteOp k => dbDeleteRaw k s

/-- Engine model: committing a `WriteBatch` applies its operations in order. -/
def applyBatch (s : Store) (b : List BatchOp) : Store :=
  b.foldl applyOp s

/-- Engine model: `DB::write` commits the batch atomically.  `fail` injects an
engine failure: then an error is returned and the state is unchanged;
otherwise all operations take effect. -/
def dbWrite (fail : Bool) (b : List BatchOp) (s : Store) :
    Except RocksError Unit × Store :=
  if fail then (.error (.engine "write failed"), s) else (.ok (), applyBatch s b)

/-- `RocksFs::put`: single-key write (rocksfs.rs lines 26-32). -/
def put (k v : Bytes) (s : Store) : Except RocksError Unit × Store :=
  (.ok (), dbPut k v s)

/-- `RocksFs::del`: single-key delete (rocksfs.rs lines 34-39). -/
def del (k : Bytes) (s : Store) : Except RocksError Unit × Store :=
  (.ok (), dbDeleteRaw k s)

/-- `RocksFs::bulk_put` (rocksfs.rs lines 41-51): fill a `WriteBatch` with one
put per input pair, in input order, then commit it with `DB::write`. -/
def bulk_put (fail : Bool) (values : List (Bytes × Bytes)) (s : Store) :
    Except RocksError Unit × Store :=
  dbWrite fail (values.map fun p => .putOp p.1 p.2) s

/-- `RocksFs::bulk_delete` (rocksfs.rs lines 53-62). -/
def bulk_delete (fail : Bool) (keys : List Bytes) (s : Store) :
    Except RocksError Unit × Store :=
  dbWrite fail (keys.map .deleteOp) s

/-- Engine model: `DB::get_pinned` on an uncorrupted store succeeds and
returns the current value, if any. -/
def dbGetPinned (k : Bytes) (s : Store) : Except RocksError (Option Bytes) :=
  .ok (lookupStore k s)

/-- `RocksFs::get` (rocksfs.rs lines 64-72): propagate an engine error via
`?`, turn an absent key into the "key not found" error. -/
def get (k : Bytes) (s : Store) : Except RocksError Bytes :=
  match dbGetPinned k s with
  | .error e => .error e
  | .ok none => .error .notFound
  | .ok (some v) => .ok v

/-- `RocksFs::get_size` (rocksfs.rs lines 74-82): like `get`, but returns the
byte length of the value. -/
def get_size (k : Bytes) (s : Store) : Except RocksError Nat :=
  match dbGetPinned k s with
  | .error e => .error e
  | .ok none => .error .notFound
  | .ok (some v) => .ok v.length

/-- `RocksFs::has` (rocksfs.rs lines 86-93): map the optional read to its
presence bit, propagating engine errors. -/
def has (k : Bytes) (s : Store) : Except RocksError Bool :=
  (dbGetPinned k s).map Option.isSome

/-- `RocksFs::clear` (rocksfs.rs lines 97-103): iterate over a snapshot of
the store from the start and delete each key seen. -/
def clear (s : Store) : Store :=
  (s.map Prod.fst).foldl (fun acc k => dbDeleteRaw k acc) s

/-- `RocksFs::number_of_keys` (rocksfs.rs lines 105-111): query the engine's
`rocksdb.estimate-num-keys` property, default a missing value to 0
(`unwrap_or_default`), propagate a query failure.  The engine response is the
argument. -/
def number_of_keys (resp : Except RocksError (Option Nat)) :
    Except RocksError Nat :=
  match resp with
  | .error e => .error e
  | .ok keys => .ok (keys.getD 0)

end RocksFs

namespace Importer

open RocksFs

/-- Mutable state of the import loop in `examples/importer.rs` `main`:
running record count and byte size, the in-memory buffer, and the destination
store.  `flushes` records the size of every `bulk_put` call made and
`reports` every progress line printed, so the claims about call counts and
progress cadence can be stated. -/
structure ImportState where
  count : Nat
  size : Nat
  buffer : List (Bytes × Bytes)
  dest : Store
  flushes : List Nat
  reports : List (Nat × Nat)
deriving DecidableEq

/-- State at the top of `main`'s loop: zeroed counters, empty buffer. -/
def initState (dest : Store) : ImportState :=
  { count := 0, size := 0, buffer := [], dest := dest, flushes := [], reports := [] }

/-- Body of one loop iteration of `importer.rs` `main` (lines 31-50) after a
record was successfully read: bump `count` and `size`, push onto the buffer,
flush via `bulk_put` when the buffer reaches `buffer_size`, and print a
progress line when `size % 10_000 == 0`. -/
def recordStep (buffer_size : Nat) (key value : Bytes) (st : ImportState) :
    ImportState :=
  let count := st.count + 1
  let size := st.size + value.length
  let buffer := st.buffer ++ [(key, value)]
  let st' :=
    if buffer.length = buffer_size then
      { st with
        count := count,
        size := size,
        buffer := [],
        dest := (bulk_put false buffer st.dest).2,
        flushes := st.flushes ++ [buffer.length] }
    else
      { st with count := count, size := size, buffer := buffer }
  if size % 10000 = 0 then
    { st' with reports := st'.reports ++ [(count, size)] }
  else
    st'

/-- The `for r in flatfs.iter()` loop of `importer.rs` `main`: each source
item is either a record or a read error.  The limit check (`limit == count`)
happens before the record is unwrapped; a read error aborts the run via `?`.
After the loop the remaining buffer is NOT flushed — exactly as in the
source, which falls through to the final `println!`. -/
def importLoop (buffer_size : Nat) (limit : Option Nat) :
    List (Except String (Bytes × Bytes)) → ImportState →
    Except String ImportState
  | [], st => .ok st
  | r :: rest, st =>
    if limit = some st.count then .ok st
    else
      match r with
      | .error e => .error e
      | .ok (key, value) =>
          importLoop buffer_size limit rest (recordStep buffer_size key value st)

/-- A whole importer run into an empty destination, with the batch capacity
and optional record limit as parameters (`importer.rs` fixes
`buffer_size = 1024` and reads `limit` from the command line). -/
def importerImport (buffer_size : Nat) (limit : Option Nat)
    (source : List (Except String (Bytes × Bytes))) :
    Except String ImportState :=
  importLoop buffer_size limit source (initState [])

/-- The batch capacity hard-coded in `importer.rs` line 28. -/
def buffer_size : Nat := 1024

end Importer

namespace Spec

open RocksFs

/-- Specification-side reading of a bulk write: apply the puts sequentially,
in the given order, to the store. -/
def applyPuts (values : List (Bytes × Bytes)) (s : Store) : Store :=
  values.foldl (fun m p => dbPut p.1 p.2 m) s

/-- The value of the last occurrence of key `k` in `values`, if any — the
"later duplicate keys win" reading of a batch. -/
def lastWins (values : List (Bytes × Bytes)) (k : Bytes) : Option Bytes :=
  (values.reverse.find? fun p => decide (p.1 = k)).map Prod.snd

/-- Specification-side progress report stream: starting from running count
`cnt` and byte size `sz`, the `(count, bytes)` observations the importer
prints, one after each record whose consumption makes the cumulative byte
count an exact multiple of 10 000. -/
def progressReports (cnt sz : Nat) : List (Bytes × Bytes) → List (Nat × Nat)
  | [] => []
  | (_, v) :: rest =>
      (if (sz + v.length) % 10000 = 0 then [(cnt + 1, sz + v.length)] else [])
        ++ progressReports (cnt + 1) (sz + v.length) rest

/-- The prefix of the source records the importer consumes under an optional
record limit. -/
def consumedRecords : Option Nat → List (Bytes × Bytes) → List (Bytes × Bytes)
  | none, recs => recs
  | some l, recs => recs.take l

/-- A 3-record source with distinct keys and value lengths 1, 2, 1. -/
def srcThree : List (Except String (Bytes × Bytes)) :=
  [.ok ([0], [17]), .ok ([1], [18, 19]), .ok ([2], [20])]

/-- A 250-record source with distinct single-byte keys and 1-byte values. -/
def src250 : List (Except String (Bytes × Bytes)) :=
  (List.range 250).map fun i => .ok ([i], [7])

/-- A 2-record source with distinct keys. -/
def srcTwo : List (Except String (Bytes × Bytes)) :=
  [.ok ([0], [1]), .ok ([1], [2])]

/-- A 1-record source whose single value is 15 000 bytes long, so consuming
it moves the cumulative byte count from 0 to 15 000, across the 10 000-byte
reporting boundary, without landing on a multiple of 10 000. -/
def srcBig : List (Except String (Bytes × Bytes)) :=
  [.ok ([0], List.replicate 15000 0)]

end Spec

namespace RocksFs

theorem lookupStore_dbDeleteRaw (k k' : Bytes) (s : Store) :
    lookupStore k (dbDeleteRaw k' s) = if k' = k then none else lookupStore k s := by
  induction s with
  | nil => simp [dbDeleteRaw, lookupStore]
  | cons p rest ih =>
      obtain ⟨a, b⟩ := p
      simp only [dbDeleteRaw, lookupStore]
      split_ifs with h1 h2 <;> simp_all [lookupStore]

theorem lookupStore_dbPut (k k' v : Bytes) (s : Store) :
    lookupStore k (dbPut k' v s) = if k' = k then some v else lookupStore k s := by
  simp only [dbPut, lookupStore, lookupStore_dbDeleteRaw]
  split_ifs <;> rfl

theorem dbDeleteRaw_absent (k : Bytes) (s : Store) (h : lookupStore k s = none) :
    dbDeleteRaw k s = s := by
  induction s with
  | nil => rfl
  | cons p rest ih =>
      obtain ⟨a, b⟩ := p
      simp only [lookupStore] at h
      by_cases hak : a = k
      · simp [hak] at h
      · simp only [dbDeleteRaw, if_neg hak]
        rw [ih (by simpa [hak] using h)]

theorem mem_dbDeleteRaw {p : Bytes × Bytes} {k : Bytes} {s : Store}
    (h : p ∈ dbDeleteRaw k s) : p ∈ s ∧ p.1 ≠ k := by
  induction s with
  | nil => simp [dbDeleteRaw] at h
  | cons q rest ih =>
      obtain ⟨a, b⟩ := q
      simp only [dbDeleteRaw] at h
      split_ifs at h with hak
      · have := ih h
        exact ⟨List.mem_cons_of_mem _ this.1, this.2⟩
      · rcases List.mem_cons.mp h with h1 | h2
        · subst h1
          exact ⟨List.mem_cons_self _ _, hak⟩
        · have := ih h2
          exact ⟨List.mem_cons_of_mem _ this.1, this.2⟩

theorem foldl_dbDeleteRaw_all (l : List Bytes) (t : Store)
    (h : ∀ p ∈ t, p.1 ∈ l) :
    l.foldl (fun acc k => dbDeleteRaw k acc) t = [] := by
  induction l generalizing t with
  | nil =>
      cases t with
      | nil => rfl
      | cons p rest => exact absurd (h p (List.mem_cons_self _ _)) (by simp)
  | cons k l ih =>
      simp only [List.foldl_cons]
      apply ih
      intro p hp
      obtain ⟨hmem, hne⟩ := mem_dbDeleteRaw hp
      have := h p hmem
      simp only [List.mem_cons] at this
      exact this.resolve_left hne

theorem clear_eq_nil (s : Store) : clear s = [] := by
  apply foldl_dbDeleteRaw_all
  intro p hp
  exact List.mem_map_of_mem Prod.fst hp

theorem applyBatch_map_putOp (values : List (Bytes × Bytes)) (s : Store) :
    applyBatch s (values.map fun p => .putOp p.1 p.2) = Spec.applyPuts values s := by
  induction values generalizing s with
  | nil => rfl
  | cons p rest ih =>
      simp only [List.map_cons, applyBatch, List.foldl_cons, applyOp, Spec.applyPuts] at *
      exact ih _

theorem lookupStore_applyPuts (values : List (Bytes × Bytes)) (k : Bytes) (s : Store) :
    lookupStore k (Spec.applyPuts values s) =
      (Spec.lastWins values k).or (lookupStore k s) := by
  induction values generalizing s with
  | nil => simp [Spec.applyPuts, Spec.lastWins]
  | cons p rest ih =>
      obtain ⟨a, b⟩ := p
      simp only [Spec.applyPuts, List.foldl_cons] at *
      rw [ih, lookupStore_dbPut]
      simp only [Spec.lastWins, List.reverse_cons, List.find?_append]
      cases hf : rest.reverse.find? (fun p => decide (p.1 = k)) with
      | some w => simp [Option.or]
      | none =>
          simp only [Option.none_or, List.find?]
          by_cases hak : a = k <;> simp [hak, Option.or]

end RocksFs

namespace Importer

open RocksFs

theorem recordStep_count (B : Nat) (k v : Bytes) (st : ImportState) :
    (recordStep B k v st).count = st.count + 1 := by
  simp only [recordStep]
  split_ifs <;> rfl

theorem recordStep_size (B : Nat) (k v : Bytes) (st : ImportState) :
    (recordStep B k v st).size = st.size + v.length := by
  simp only [recordStep]
  split_ifs <;> rfl

theorem recordStep_reports (B : Nat) (k v : Bytes) (st : ImportState) :
    (recordStep B k v st).reports =
      st.reports ++
        (if (st.size + v.length) % 10000 = 0
          then [(st.count + 1, st.size + v.length)] else []) := by
  simp only [recordStep]
  split_ifs <;> simp

theorem importLoop_reports_none (B : Nat) (recs : List (Bytes × Bytes)) :
    ∀ st : ImportState,
      (importLoop B none (recs.map .ok) st).map (fun s => s.reports) =
        .ok (st.reports ++ Spec.progressReports st.count st.size recs) := by
  induction recs with
  | nil => intro st; simp [importLoop, Spec.progressReports, Except.map]
  | cons p rest ih =>
      intro st
      obtain ⟨k, v⟩ := p
      simp only [List.map_cons, importLoop]
      rw [if_neg (by simp)]
      rw [ih (recordStep B k v st)]
      rw [recordStep_reports, recordStep_count, recordStep_size]
      simp [Spec.progressReports, List.append_assoc]

theorem importLoop_reports_limit (B L : Nat) (recs : List (Bytes × Bytes)) :
    ∀ st : ImportState, st.count ≤ L →
      (importLoop B (some L) (recs.map .ok) st).map (fun s => s.reports) =
        .ok (st.reports ++
          Spec.progressReports st.count st.size (recs.take (L - st.count))) := by
  induction recs with
  | nil => intro st _; simp [importLoop, Spec.progressReports, Except.map]
  | cons p rest ih =>
      intro st h
      obtain ⟨k, v⟩ := p
      by_cases hL : L = st.count
      · simp [importLoop, hL, Nat.sub_self, Spec.progressReports, Except.map]
      · have hlt : st.count < L := lt_of_le_of_ne h (fun e => hL e.symm)
        simp only [List.map_cons, importLoop]
        rw [if_neg (by simp [hL])]
        have hcount : (recordStep B k v st).count ≤ L := by
          rw [recordStep_count]; omega
        rw [ih (recordStep B k v st) hcount]
        rw [recordStep_reports, recordStep_count, recordStep_size]
        have htake : L - st.count = (L - (st.count + 1)) + 1 := by omega
        rw [htake, List.take_succ_cons]
        simp [Spec.progressReports, List.append_assoc]

end Importer

open RocksFs Importer Spec

/-- C1: the claim asserts that migrating M records with no limit and batch
capacity B (B < M, B ∤ M) leaves exactly M keys in the destination, with
stats.count = M and stats.bytes the sum of the value lengths, the final
partial batch being flushed after the source is exhausted.  On the 3-record
source with B = 2 the code does reach count = 3 and bytes = 4, but the loop
ends with the last record still in the buffer and never flushed: the
destination holds 2 keys, not 3, and the third key is absent. -/
theorem importer_drops_final_partial_batch :
    (importerImport 2 none srcThree).map
        (fun st => (st.count, st.size, st.dest.length, lookupStore [2] st.dest)) =
      .ok (3, 4, 2, none) ∧ (2 : Nat) ≠ 3 :=
  ⟨rfl, by decide⟩

/-- C2: the claim asserts that migrating 250 records with batch capacity 100
performs exactly 3 bulk writes (100, 100, 50) and leaves 250 keys.  The code
performs only the 2 full-batch writes of 100 records each: the last 50
records stay in the buffer, the destination ends with 200 keys and key
`[249]` is absent. -/
theorem importer_250_batch100_only_two_flushes :
    (importerImport 100 none src250).map
        (fun st => (st.count, st.flushes, st.dest.length, lookupStore [249] st.dest)) =
      .ok (250, [100, 100], 200, none) ∧
    ([100, 100] : List Nat).length ≠ 3 ∧ (200 : Nat) ≠ 250 :=
  ⟨rfl, by decide, by decide⟩

/-- C3: the claim asserts that with a limit L < M exactly L records are
consumed, exactly L records end up in the destination, and stats.count = L.
With L = 1 on a 2-record source the code does stop after consuming exactly
1 record (count = 1, size = 1), but no bulk write ever happens
(the buffer is below capacity and is not flushed on the limit break), so the
destination stays empty: 0 records migrated, not 1. -/
theorem importer_limit_partial_batch_not_flushed :
    (importerImport Importer.buffer_size (some 1) srcTwo).map
        (fun st => (st.count, st.size, st.flushes, st.dest)) =
      .ok (1, 1, [], []) ∧ (0 : Nat) ≠ 1 :=
  ⟨rfl, by decide⟩

/-- C4 counterexample: consuming a single 15 000-byte value moves the
cumulative byte count from 0 to 15 000, crossing the 10 000-byte reporting
boundary (the interval index changes from 0 to 1), yet the run emits no
progress observation at all, because 15 000 is not an exact multiple of
10 000 — refuting the claim that an observation is emitted at every boundary
crossing regardless of the individual value sizes. -/
theorem progress_report_crossing_skipped :
    (importerImport Importer.buffer_size none srcBig).map
        (fun st => (st.size, st.reports)) = .ok (15000, []) ∧
      0 / 10000 ≠ 15000 / 10000 := by
  refine ⟨?_, by decide⟩
  have hstep : importerImport Importer.buffer_size none srcBig =
      Except.ok (recordStep Importer.buffer_size [0] (List.replicate 15000 0)
        (initState [])) := rfl
  rw [hstep]
  simp only [Except.map, recordStep_size, recordStep_reports, List.length_replicate]
  simp only [initState]
  norm_num

/-- C4 as amended: during a run (any batch capacity, any optional limit, any
error-free source), a progress observation carrying the cumulative record
count and cumulative byte count is emitted after consuming a record exactly
when the new cumulative byte count is an exact multiple of the 10 000-byte
reporting interval; a crossing that does not land exactly on a multiple
emits nothing. -/
theorem progress_reports_exactly_at_multiples (B : Nat) (lim : Option Nat)
    (recs : List (Bytes × Bytes)) :
    (importerImport B lim (recs.map .ok)).map (fun st => st.reports) =
      .ok (progressReports 0 0 (consumedRecords lim recs)) := by
  cases lim with
  | none =>
      have h := importLoop_reports_none B recs (initState [])
      simpa [importerImport, consumedRecords, initState] using h
  | some L =>
      have h := importLoop_reports_limit B L recs (initState []) (Nat.zero_le L)
      simpa [importerImport, consumedRecords, initState] using h

/-- C5: `bulk_put` applies all writes as one atomic unit — on success the
resulting store is exactly the sequential application of the puts in the
given order (all records visible), on engine failure the error is surfaced
and the store is unchanged (none visible) — and the lookup of any key in the
resulting store is the last occurrence of that key in the batch when there is
one, so later duplicate keys in the same batch win. -/
theorem bulk_put_atomic_sequential_last_wins
    (values : List (Bytes × Bytes)) (s : Store) :
    bulk_put false values s = (.ok (), applyPuts values s) ∧
    bulk_put true values s = (.error (.engine "write failed"), s) ∧
    ∀ k, lookupStore k (applyPuts values s) =
      (lastWins values k).or (lookupStore k s) := by
  refine ⟨?_, rfl, fun k => lookupStore_applyPuts values k s⟩
  simp [bulk_put, dbWrite, applyBatch_map_putOp]

/-- C6: after a successful `put k v`, `get k` returns exactly `v` and
`get_size k` returns `v.length`. -/
theorem put_get_roundtrip (k v : Bytes) (s : Store) :
    get k (put k v s).2 = .ok v ∧ get_size k (put k v s).2 = .ok v.length := by
  constructor <;> simp [put, RocksFs.get, get_size, dbGetPinned, lookupStore_dbPut]

/-- C7: for a key absent from the store, `get` and `get_size` fail with the
"not found" error, which is a different error value from every engine (I/O)
error, so the caller can treat absence as a normal outcome. -/
theorem get_absent_not_found_distinguishable (k : Bytes) (s : Store)
    (h : lookupStore k s = none) :
    get k s = .error .notFound ∧ get_size k s = .error .notFound ∧
      ∀ msg, (RocksError.notFound : RocksError) ≠ .engine msg := by
  refine ⟨?_, ?_, fun msg hne => RocksError.noConfusion hne⟩ <;>
    simp [RocksFs.get, get_size, dbGetPinned, h]

theorem get_absent_not_found_distinguishable_witness :
    lookupStore [0] ([] : Store) = none ∧
      (get [0] ([] : Store) = .error .notFound ∧
        get_size [0] ([] : Store) = .error .notFound ∧
        ∀ msg, (RocksError.notFound : RocksError) ≠ .engine msg) :=
  ⟨rfl, get_absent_not_found_distinguishable [0] [] rfl⟩

/-- C8: after `clear` on any store, the key-count estimate computed from the
cleared store reports 0 and no key at all (in particular no previously
written key) is retrievable: every `get` fails with "not found". -/
theorem clear_empties_store (s : Store) :
    number_of_keys (.ok (some (clear s).length)) = .ok 0 ∧
      ∀ k, get k (clear s) = .error .notFound := by
  have h := clear_eq_nil s
  refine ⟨by rw [h]; rfl, fun k => by rw [h]; rfl⟩

/-- C9: deleting an absent key succeeds and leaves the store unchanged, and
after deleting any key a subsequent `get` of it fails with "not found" and
`has` returns false. -/
theorem del_absent_noop_and_removes (k : Bytes) (s : Store) :
    (lookupStore k s = none → del k s = (.ok (), s)) ∧
      get k (del k s).2 = .error .notFound ∧
      has k (del k s).2 = .ok false := by
  refine ⟨fun h => ?_, ?_, ?_⟩
  · simp [del, dbDeleteRaw_absent k s h]
  · simp [del, RocksFs.get, dbGetPinned, lookupStore_dbDeleteRaw]
  · simp [del, has, dbGetPinned, lookupStore_dbDeleteRaw, Except.map]

theorem del_absent_noop_and_removes_witness :
    del [0] ([] : Store) = (.ok (), ([] : Store)) ∧
      get [0] (del [0] ([([0], [1])] : Store)).2 = .error .notFound ∧
      has [0] (del [0] ([([0], [1])] : Store)).2 = .ok false :=
  ⟨(del_absent_noop_and_removes [0] []).1 rfl,
    (del_absent_noop_and_removes [0] [([0], [1])]).2.1,
    (del_absent_noop_and_removes [0] [([0], [1])]).2.2⟩

/-- C10: the key-count estimate returns `Ok 0` when the engine's property
query succeeds with no value, returns the value when there is one, and fails
exactly when the query itself fails. -/
theorem number_of_keys_defaults_missing_to_zero :
    number_of_keys (.ok none) = .ok 0 ∧
      (∀ n, number_of_keys (.ok (some n)) = .ok n) ∧
      (∀ e, number_of_keys (.error e) = .error e) :=
  ⟨rfl, fun _ => rfl, fun _ => rfl⟩
